import Mathlib

/-!
Verification of the tx-whisperer classification core.

The shipped `src/lib/tx.ts` (character-class checkers, `normalizeTx`,
`detectChain`) is embedded below over `List Char`, mirroring the source
line by line.  The repository's current extended detector module
(`extractFromUrl`, `detectInputType`, the address classifiers, the
trivial-hash rejection and the length-20 gate) is referenced by the
repository's tests, types and callers but its source is not present;
where a claim depends on it, it is modelled from the spec in the `Spec`
namespace.  The contamination module (embedded from the source shipped
alongside `contamination.test.ts`) is parameterised by the blacklist
table, which the source loads from a static JSON file.
-/

set_option maxRecDepth 40000

namespace TxWhisperer

/-- ASCII lower-casing of a single character, modelling what JS
`String.prototype.toLowerCase` does on the ASCII range (characters
outside `A`-`Z` are left unchanged). -/
def toLowerChar (c : Char) : Char :=
  if h : 65 ≤ c.toNat ∧ c.toNat ≤ 90 then
    Char.ofNatAux (c.toNat + 32) (Or.inl (by omega))
  else c

/-- Lower-case every character of a string (JS `toLowerCase`). -/
def lowerStr (s : List Char) : List Char := s.map toLowerChar

/-- The whitespace class removed by JS `trim` (ASCII subset: space, tab,
line feed, vertical tab, form feed, carriage return). -/
def isWhitespace (c : Char) : Bool :=
  c.toNat == 32 || c.toNat == 9 || c.toNat == 10 || c.toNat == 11 ||
    c.toNat == 12 || c.toNat == 13

/-- Drop trailing characters satisfying `p` (helper for `trim`). -/
def dropTrailing (p : Char → Bool) : List Char → List Char
  | [] => []
  | c :: t =>
    let r := dropTrailing p t
    if r.isEmpty && p c then [] else c :: r

/-- JS `String.prototype.trim`: remove leading and trailing whitespace. -/
def trim (s : List Char) : List Char :=
  dropTrailing isWhitespace (s.dropWhile isWhitespace)

/-- `HEX_CHARS` from src/lib/tx.ts. -/
def HEX_CHARS : List Char := "0123456789abcdefABCDEF".data

/-- `BASE58_CHARS` from src/lib/tx.ts (excludes 0, O, I, l). -/
def BASE58_CHARS : List Char :=
  "123456789ABCDEFGHJKLMNPQRSTUVWXYZabcdefghijkmnopqrstuvwxyz".data

/-- `isHexString` from src/lib/tx.ts: every character is hex
(`every` is true on the empty string, as in the source). -/
def isHexString (s : List Char) : Bool := s.all (fun c => HEX_CHARS.contains c)

/-- `isBase58String` from src/lib/tx.ts. -/
def isBase58String (s : List Char) : Bool :=
  s.all (fun c => BASE58_CHARS.contains c)

/-- Does the string start with the two characters `0x`
(JS `startsWith('0x')`, case sensitive)? -/
def startsWith0x (s : List Char) : Bool :=
  match s with
  | c0 :: c1 :: _ => c0 == '0' && c1 == 'x'
  | _ => false

/-- `normalizeTx` from src/lib/tx.ts: trim, then lowercase when the
string looks like hex (starts with `0x`, or is 64 chars of hex). -/
def normalizeTx (tx : List Char) : List Char :=
  let trimmed := trim tx
  if startsWith0x trimmed = true ∨
      (trimmed.length = 64 ∧ isHexString trimmed = true) then
    lowerStr trimmed
  else trimmed

/-- `ChainType` from src/lib/tx.ts. -/
inductive ChainType
  | evm
  | solana
  | bitcoin
  | unknown
deriving DecidableEq

/-- `InputType` from the repository's detector module
(`'address' | 'tx' | 'unknown'`), as imported by lib/types.ts and the
tests. -/
inductive InputType
  | address
  | tx
  | unknown
deriving DecidableEq

/-- Body of `detectChain` from src/lib/tx.ts applied to the normalized
string (the source computes `normalizeTx` first; `!normalized` in the
source is subsumed by the length test, since only the empty string is
falsy there). -/
def detectChainCore (n : List Char) : ChainType :=
  if n.length < 10 then .unknown
  else if startsWith0x n = true then
    if (n.drop 2).length = 64 ∧ isHexString (n.drop 2) = true then .evm
    else .unknown
  else if n.length = 64 ∧ isHexString n = true then .bitcoin
  else if 80 ≤ n.length ∧ n.length ≤ 90 ∧ isBase58String n = true then .solana
  else .unknown

/-- `detectChain` from src/lib/tx.ts. -/
def detectChain (tx : List Char) : ChainType :=
  detectChainCore (normalizeTx tx)

/-- `isValidTx` from src/lib/tx.ts. -/
def isValidTx (tx : List Char) : Bool := decide (detectChain tx ≠ .unknown)

namespace Spec

/-!
The repository's current detector module (the one imported by
lib/types.ts, lib/contamination.ts, the API route and lib/tx.test.ts,
exporting `extractFromUrl`, `detectInputType` and the address
validators) is not present under src/; only the older revision embedded
above is.  The definitions in this namespace are modelled from the
spec (sections 4.1-4.5), faithful to its words.
-/

/-- Modelled from the spec: `isTrivialHex` (4.1) - true iff,
case-insensitively, the string consists entirely of `0` or entirely of
`f`; total, false on the empty string per "degenerate value" intent. -/
def isTrivialHex (s : List Char) : Bool :=
  !s.isEmpty && (s.all (fun c => c == '0') || s.all (fun c => toLowerChar c == 'f'))

/-- Is `pat` an infix of the string (scanning left to right)? -/
def containsSub (pat : List Char) : List Char → Bool
  | [] => pat.isEmpty
  | c :: rest => pat.isPrefixOf (c :: rest) || containsSub pat rest

/-- Modelled from the spec: the fragments that make a cleaned string
"look like a URL" (4.2 step 2: contains `://` or a recognized domain
path fragment). -/
def URL_MARKERS : List (List Char) :=
  ["://".data, "etherscan.io/".data, "polygonscan.com/".data,
    "solscan.io/".data, "mempool.space/".data, "blockchain.com/".data]

/-- Modelled from the spec: does the cleaned string look like a URL? -/
def looksLikeUrl (s : List Char) : Bool :=
  URL_MARKERS.any (fun m => containsSub m s)

/-- Run a pattern check at every position, left to right; the first
position where the check matches wins (regex-style scan). -/
def scanFor (check : List Char → Option (List Char)) :
    List Char → Option (List Char)
  | [] => none
  | c :: rest =>
    match check (c :: rest) with
    | some r => some r
    | none => scanFor check rest

/-- Modelled from the spec: URL pattern 1 - generic EVM-style explorer
`/tx/0x<64 hex>`, capturing the `0x`-prefixed hash. -/
def evmTxCheck (s : List Char) : Option (List Char) :=
  if ("/tx/0x".data).isPrefixOf s then
    let cand := (s.drop 6).take 64
    if cand.length = 64 ∧ isHexString cand = true then
      some ('0' :: 'x' :: cand)
    else none
  else none

/-- Modelled from the spec: URL pattern 2 - Solana explorer
`/tx/<80-90 base58>` (greedy run of base58 characters). -/
def solTxCheck (s : List Char) : Option (List Char) :=
  if ("/tx/".data).isPrefixOf s then
    let run := (s.drop 4).takeWhile (fun c => BASE58_CHARS.contains c)
    if 80 ≤ run.length then some (run.take 90) else none
  else none

/-- Modelled from the spec: URL pattern 3 - Bitcoin explorer
`/tx/<64 hex>`. -/
def btcTxCheck (s : List Char) : Option (List Char) :=
  if ("/tx/".data).isPrefixOf s then
    let cand := (s.drop 4).take 64
    if cand.length = 64 ∧ isHexString cand = true then some cand else none
  else none

/-- Modelled from the spec: URL fallback pattern 4 - a `0x`-prefixed
64-hex run anywhere in the string. -/
def anyEvmCheck (s : List Char) : Option (List Char) :=
  match s with
  | c0 :: c1 :: rest =>
    if c0 == '0' && c1 == 'x' then
      let cand := rest.take 64
      if cand.length = 64 ∧ isHexString cand = true then
        some ('0' :: 'x' :: cand)
      else none
    else none
  | _ => none

/-- Modelled from the spec: URL fallback pattern 5 - a bare 64-hex run
at the end of a path. -/
def pathEndHexCheck (s : List Char) : Option (List Char) :=
  match s with
  | c :: rest =>
    if c == '/' then
      if rest.length = 64 ∧ isHexString rest = true then some rest else none
    else none
  | _ => none

/-- Modelled from the spec: `extractFromUrl` - the ordered list of
(pattern, capture) pairs; the first pattern that matches anywhere wins. -/
def extractFromUrl (s : List Char) : Option (List Char) :=
  match scanFor evmTxCheck s with
  | some r => some r
  | none =>
    match scanFor solTxCheck s with
    | some r => some r
    | none =>
      match scanFor btcTxCheck s with
      | some r => some r
      | none =>
        match scanFor anyEvmCheck s with
        | some r => some r
        | none => scanFor pathEndHexCheck s

/-- Modelled from the spec: normalization step 1 - remove all
whitespace characters, including interior ones. -/
def removeWhitespace (s : List Char) : List Char :=
  s.filter (fun c => !isWhitespace c)

/-- Modelled from the spec: normalization step 3 - rewrite an uppercase
`0X` prefix to lowercase `0x`. -/
def rewrite0X (s : List Char) : List Char :=
  match s with
  | c0 :: c1 :: rest =>
    if c0 == '0' && c1 == 'X' then '0' :: 'x' :: rest else s
  | _ => s

/-- Modelled from the spec: normalization step 2 - when the cleaned
string looks like a URL, replace it by the first captured identifier;
when no pattern matches, keep the cleaned string unchanged. -/
def extractStep (cleaned : List Char) : List Char :=
  if looksLikeUrl cleaned = true then
    match extractFromUrl cleaned with
    | some id => id
    | none => cleaned
  else cleaned

/-- Modelled from the spec: normalization step 4 - lowercase the
string when it starts with `0x` or is exactly 64 hex characters. -/
def caseStep (prefixed : List Char) : List Char :=
  if startsWith0x prefixed = true ∨
      (prefixed.length = 64 ∧ isHexString prefixed = true) then
    lowerStr prefixed
  else prefixed

/-- Modelled from the spec: `normalize` (4.2) - strip all whitespace
(step 1), extract an identifier from a recognized explorer URL
(step 2), canonicalize the `0X` prefix (step 3), and lowercase
hex-shaped strings (step 4). -/
def normalize (raw : List Char) : List Char :=
  caseStep (rewrite0X (extractStep (removeWhitespace raw)))

/-- Modelled from the spec: EVM address validator (4.3). -/
def isEvmAddress (s : List Char) : Bool :=
  match s with
  | c0 :: c1 :: rest =>
    c0 == '0' && (c1 == 'x' || c1 == 'X') && rest.length == 40 &&
      isHexString rest && !isTrivialHex rest
  | _ => false

/-- The Bech32 data-character set (lowercase letters and digits
excluding `1`, `b`, `i`, `o`). -/
def BECH32_CHARS : List Char := "qpzry9x8gf2tvdw0s3jn54khce6mua7l".data

/-- Modelled from the spec: Bitcoin address validator (4.3) - legacy
(`1...`), P2SH (`3...`), or Bech32 (`bc1...`, case-insensitive). -/
def isBitcoinAddress (s : List Char) : Bool :=
  (match s with
    | c :: _ =>
      (c == '1' || c == '3') && 25 ≤ s.length && s.length ≤ 34 &&
        isBase58String s
    | _ => false) ||
  (match lowerStr s with
    | b :: c :: o :: rest =>
      b == 'b' && c == 'c' && o == '1' && 42 ≤ s.length && s.length ≤ 62 &&
        rest.all (fun ch => BECH32_CHARS.contains ch)
    | _ => false)

/-- Modelled from the spec: Solana address validator (4.3) - length
32-44, full base58, and at least one character outside the hex
alphabet. -/
def isSolanaAddress (s : List Char) : Bool :=
  32 ≤ s.length && s.length ≤ 44 && isBase58String s &&
    s.any (fun c => !HEX_CHARS.contains c)

/-- Modelled from the spec: the address classifier's chain, first match
in EVM, Bitcoin, Solana order (4.3). -/
def detectAddressChain (s : List Char) : ChainType :=
  if isEvmAddress s = true then .evm
  else if isBitcoinAddress s = true then .bitcoin
  else if isSolanaAddress s = true then .solana
  else .unknown

/-- Modelled from the spec: the hash classifier (4.4): a `0x` prefix
short-circuits to the EVM rule; otherwise the strict Solana signature
window [85, 90], then Bitcoin's exact 64, then the widened Solana
fallback window (the URL pattern's 80-90).  Both Solana rules demand a
character outside the hex alphabet. -/
def detectHashChain (s : List Char) : ChainType :=
  if startsWith0x s = true then
    if (s.drop 2).length = 64 ∧ isHexString (s.drop 2) = true ∧
        isTrivialHex (s.drop 2) = false then .evm
    else .unknown
  else if 85 ≤ s.length ∧ s.length ≤ 90 ∧ isBase58String s = true ∧
      (s.any (fun c => !HEX_CHARS.contains c)) = true then .solana
  else if s.length = 64 ∧ isHexString s = true ∧ isTrivialHex s = false then
    .bitcoin
  else if 80 ≤ s.length ∧ s.length ≤ 90 ∧ isBase58String s = true ∧
      (s.any (fun c => !HEX_CHARS.contains c)) = true then .solana
  else .unknown

/-- Modelled from the spec: the unified detector's decision on an
already-normalized string (4.5 steps 2-5). -/
def detectCore (n : List Char) : ChainType × InputType :=
  if n.length < 20 then (.unknown, .unknown)
  else if detectAddressChain n ≠ .unknown then (detectAddressChain n, .address)
  else if detectHashChain n ≠ .unknown then (detectHashChain n, .tx)
  else (.unknown, .unknown)

/-- Modelled from the spec: `detect` (4.5) - normalize, then classify. -/
def detect (raw : List Char) : ChainType × InputType :=
  detectCore (normalize raw)

/-- Modelled from the spec: `detectChain` of the current module. -/
def detectChain (raw : List Char) : ChainType := (detect raw).1

/-- Modelled from the spec: `detectInputType` of the current module. -/
def detectInputType (raw : List Char) : InputType := (detect raw).2

end Spec

/-!
Embedding of lib/contamination.ts (the source shipped alongside
src/lib/contamination.test.ts).  Its `detectInputType`/`detectChain`
imports resolve to the current detector module, modelled above; the
blacklist table (loaded from a static JSON file in the source) is
passed explicitly, and the impure `checkedAt` timestamp is omitted.
-/

/-- `BlacklistEntry` from lib/types.ts (src/unnamed/part_000). -/
structure BlacklistEntry where
  value : List Char
  chain : ChainType
  type : InputType
  label : List Char
  source : List Char
deriving DecidableEq

/-- `ContaminationStatus` from lib/types.ts. -/
inductive ContaminationStatus
  | clean
  | flagged
  | unknown
deriving DecidableEq

/-- `ContaminationResult` from lib/types.ts (without the timestamp; the
source field is called `matches`, a reserved word here). -/
structure ContaminationResult where
  status : ContaminationStatus
  matches' : List (List Char × BlacklistEntry)
deriving DecidableEq

/-- `normalizeValue` from lib/contamination.ts. -/
def normalizeValue (input : List Char) : List Char := Spec.normalize input

/-- `valuesMatch` from lib/contamination.ts: case-insensitive for hex
values (`0x`-prefixed or exactly 64 hex chars), exact for base58. -/
def valuesMatch (input blacklistValue : List Char) : Bool :=
  let ni := normalizeValue input
  let nb := normalizeValue blacklistValue
  if startsWith0x ni = true ∨ (ni.length = 64 ∧ isHexString ni = true) then
    lowerStr ni == lowerStr nb
  else ni == nb

/-- One iteration of the blacklist loop in `checkContamination`: the
primary push requires agreement on type and chain; the secondary
value-only push is guarded by `!matches.some(m => m.entry === entry)`,
which within one iteration means "the primary push did not fire" (the
reference-equality guard never sees this entry from other iterations). -/
def checkEntry (inputType : InputType) (chain : ChainType)
    (normalized : List Char) (entry : BlacklistEntry) :
    List (List Char × BlacklistEntry) :=
  if entry.type = inputType ∧ entry.chain = chain ∧
      valuesMatch normalized entry.value = true then [(normalized, entry)]
  else if valuesMatch normalized entry.value = true then [(normalized, entry)]
  else []

/-- `checkContamination` from lib/contamination.ts, with the blacklist
table passed explicitly. -/
def checkContamination (input : List Char) (entries : List BlacklistEntry) :
    ContaminationResult :=
  let normalized := normalizeValue input
  let inputType := Spec.detectInputType normalized
  let chain := Spec.detectChain normalized
  if inputType = InputType.unknown ∨ chain = ChainType.unknown then
    ⟨.unknown, []⟩
  else
    let ms := (entries.map (checkEntry inputType chain normalized)).flatten
    ⟨if ms = [] then .clean else .flagged, ms⟩

/-! ### Accepting shapes of the shipped `detectChain` -/

/-- The EVM-accepting shape: `0x` followed by exactly 64 hex chars. -/
def evmShape (s : List Char) : Prop :=
  ∃ r, s = '0' :: 'x' :: r ∧ r.length = 64 ∧ isHexString r = true

/-- The Bitcoin-accepting shape: exactly 64 hex chars, no `0x`. -/
def bitcoinShape (s : List Char) : Prop :=
  s.length = 64 ∧ isHexString s = true ∧ startsWith0x s = false

/-- The Solana-accepting shape: length 80-90, all base58. -/
def solanaShape (s : List Char) : Prop :=
  80 ≤ s.length ∧ s.length ≤ 90 ∧ isBase58String s = true

/-! ### Character-level helper lemmas -/

theorem char_eq_of_toNat {a b : Char} (h : a.toNat = b.toNat) : a = b :=
  Char.ext (UInt32.ext h)

theorem toNat_toLowerChar_upper {c : Char} (h : 65 ≤ c.toNat ∧ c.toNat ≤ 90) :
    (toLowerChar c).toNat = c.toNat + 32 := by
  unfold toLowerChar
  rw [dif_pos h]
  rfl

theorem toLowerChar_eq_of_not_upper {c : Char}
    (h : ¬(65 ≤ c.toNat ∧ c.toNat ≤ 90)) : toLowerChar c = c := by
  unfold toLowerChar
  rw [dif_neg h]

theorem toLowerChar_idem (c : Char) :
    toLowerChar (toLowerChar c) = toLowerChar c := by
  by_cases h : 65 ≤ c.toNat ∧ c.toNat ≤ 90
  · apply toLowerChar_eq_of_not_upper
    rw [toNat_toLowerChar_upper h]
    omega
  · rw [toLowerChar_eq_of_not_upper h, toLowerChar_eq_of_not_upper h]

theorem isWhitespace_iff {c : Char} :
    isWhitespace c = true ↔
      (c.toNat = 32 ∨ c.toNat = 9 ∨ c.toNat = 10 ∨ c.toNat = 11 ∨
        c.toNat = 12 ∨ c.toNat = 13) := by
  simp [isWhitespace]
  tauto

theorem isWhitespace_toLowerChar (c : Char) :
    isWhitespace (toLowerChar c) = isWhitespace c := by
  by_cases h : 65 ≤ c.toNat ∧ c.toNat ≤ 90
  · have h1 := toNat_toLowerChar_upper h
    have hA : isWhitespace (toLowerChar c) = false := by
      rw [Bool.eq_false_iff]
      intro hx
      rw [isWhitespace_iff, h1] at hx
      omega
    have hB : isWhitespace c = false := by
      rw [Bool.eq_false_iff]
      intro hx
      rw [isWhitespace_iff] at hx
      omega
    rw [hA, hB]
  · rw [toLowerChar_eq_of_not_upper h]

theorem toLowerChar_eq_zero {c : Char} (h : toLowerChar c = '0') : c = '0' := by
  by_cases hu : 65 ≤ c.toNat ∧ c.toNat ≤ 90
  · exfalso
    have h1 := toNat_toLowerChar_upper hu
    rw [h] at h1
    have h48 : ('0' : Char).toNat = 48 := rfl
    rw [h48] at h1
    omega
  · rwa [toLowerChar_eq_of_not_upper hu] at h

theorem toLowerChar_eq_x {c : Char} (h : toLowerChar c = 'x') :
    c = 'x' ∨ c = 'X' := by
  by_cases hu : 65 ≤ c.toNat ∧ c.toNat ≤ 90
  · right
    have h1 := toNat_toLowerChar_upper hu
    rw [h] at h1
    have h120 : ('x' : Char).toNat = 120 := rfl
    rw [h120] at h1
    apply char_eq_of_toNat
    have h88 : ('X' : Char).toNat = 88 := rfl
    rw [h88]
    omega
  · left
    rwa [toLowerChar_eq_of_not_upper hu] at h

theorem mem_of_contains {l : List Char} {c : Char} (h : l.contains c = true) :
    c ∈ l := List.elem_iff.mp h

theorem contains_of_mem {l : List Char} {c : Char} (h : c ∈ l) :
    l.contains c = true := List.elem_iff.mpr h

/-- Hex characters are lower-cased into hex characters. -/
theorem hex_toLowerChar {c : Char} (h : HEX_CHARS.contains c = true) :
    HEX_CHARS.contains (toLowerChar c) = true := by
  have hm := mem_of_contains h
  fin_cases hm <;> decide

/-- Hex characters are not whitespace, nor any of the URL-structural
characters. -/
theorem hex_char_facts {c : Char} (h : HEX_CHARS.contains c = true) :
    isWhitespace c = false ∧ c ≠ ':' ∧ c ≠ '.' ∧ c ≠ '/' ∧ c ≠ 't' ∧
      c ≠ 'x' ∧ c ≠ 'X' := by
  have hm := mem_of_contains h
  fin_cases hm <;> decide

/-- Base58 characters are not whitespace, nor any of `0`, `:`, `.`,
`/`. -/
theorem b58_char_facts {c : Char} (h : BASE58_CHARS.contains c = true) :
    isWhitespace c = false ∧ c ≠ '0' ∧ c ≠ ':' ∧ c ≠ '.' ∧ c ≠ '/' := by
  have hm := mem_of_contains h
  fin_cases hm <;> decide

/-! ### Trim helper lemmas -/

theorem dropWhile_idem (p : Char → Bool) (l : List Char) :
    (l.dropWhile p).dropWhile p = l.dropWhile p := by
  induction l with
  | nil => rfl
  | cons c t ih =>
    by_cases h : p c
    · rw [List.dropWhile_cons_of_pos h]
      exact ih
    · rw [List.dropWhile_cons_of_neg h, List.dropWhile_cons_of_neg h]

theorem dropWhile_head_false {p : Char → Bool} {l : List Char}
    (h : l.dropWhile p = l) : ∀ c, l.head? = some c → p c = false := by
  intro c hc
  cases l with
  | nil => simp at hc
  | cons a t =>
    have hc2 : a = c := by simpa using hc
    rw [← hc2]
    by_cases hp : p a
    · exfalso
      rw [List.dropWhile_cons_of_pos hp] at h
      have h1 := congrArg List.length h
      have h2 := (List.dropWhile_suffix p (l := t)).length_le
      simp at h1
      omega
    · simpa using hp

theorem dropWhile_eq_self_of_head {p : Char → Bool} {l : List Char}
    (h : ∀ c, l.head? = some c → p c = false) : l.dropWhile p = l := by
  cases l with
  | nil => rfl
  | cons a t =>
    rw [List.dropWhile_cons_of_neg]
    simp [h a (by simp)]

theorem dropTrailing_cons (p : Char → Bool) (c : Char) (t : List Char) :
    dropTrailing p (c :: t) =
      if (dropTrailing p t).isEmpty && p c then [] else c :: dropTrailing p t :=
  rfl

theorem dropTrailing_idem (p : Char → Bool) (l : List Char) :
    dropTrailing p (dropTrailing p l) = dropTrailing p l := by
  induction l with
  | nil => rfl
  | cons c t ih =>
    rw [dropTrailing_cons]
    by_cases h : ((dropTrailing p t).isEmpty && p c) = true
    · rw [if_pos h]
      rfl
    · rw [if_neg h, dropTrailing_cons, ih, if_neg h]

theorem dropTrailing_length_le (p : Char → Bool) (l : List Char) :
    (dropTrailing p l).length ≤ l.length := by
  induction l with
  | nil => simp [dropTrailing]
  | cons c t ih =>
    rw [dropTrailing_cons]
    by_cases h : ((dropTrailing p t).isEmpty && p c) = true
    · rw [if_pos h]
      simp
    · rw [if_neg h]
      simp only [List.length_cons]
      omega

theorem dropWhile_dropTrailing {p : Char → Bool} {l : List Char}
    (h : l.dropWhile p = l) :
    (dropTrailing p l).dropWhile p = dropTrailing p l := by
  cases l with
  | nil => rfl
  | cons c t =>
    have hc : p c = false := dropWhile_head_false h c (by simp)
    rw [dropTrailing_cons]
    by_cases hg : ((dropTrailing p t).isEmpty && p c) = true
    · rw [if_pos hg]
      rfl
    · rw [if_neg hg]
      rw [List.dropWhile_cons_of_neg (by simp [hc])]

theorem trim_idem (s : List Char) : trim (trim s) = trim s := by
  unfold trim
  rw [dropWhile_dropTrailing (dropWhile_idem isWhitespace s),
    dropTrailing_idem]

theorem trim_length_le (s : List Char) : (trim s).length ≤ s.length := by
  unfold trim
  have h1 := dropTrailing_length_le isWhitespace (s.dropWhile isWhitespace)
  have h2 := (List.dropWhile_suffix (l := s) isWhitespace).length_le
  omega

/-- Lower-casing keeps a string free of leading whitespace. -/
theorem dropWhile_lowerStr {l : List Char}
    (h : l.dropWhile isWhitespace = l) :
    (lowerStr l).dropWhile isWhitespace = lowerStr l := by
  apply dropWhile_eq_self_of_head
  intro c hc
  cases l with
  | nil => simp [lowerStr] at hc
  | cons a t =>
    have ha : isWhitespace a = false := dropWhile_head_false h a (by simp)
    simp only [lowerStr, List.map_cons, List.head?_cons,
      Option.some.injEq] at hc
    rw [← hc, isWhitespace_toLowerChar]
    exact ha

/-- Lower-casing keeps a string free of trailing whitespace. -/
theorem dropTrailing_lowerStr {l : List Char}
    (h : dropTrailing isWhitespace l = l) :
    dropTrailing isWhitespace (lowerStr l) = lowerStr l := by
  induction l with
  | nil => rfl
  | cons c t ih =>
    rw [dropTrailing_cons] at h
    by_cases hg : ((dropTrailing isWhitespace t).isEmpty &&
        isWhitespace c) = true
    · rw [if_pos hg] at h
      exact absurd h (by simp)
    · rw [if_neg hg] at h
      have ht : dropTrailing isWhitespace t = t := by
        have := congrArg List.tail h
        simpa using this
      have ih2 := ih ht
      show dropTrailing isWhitespace (toLowerChar c :: lowerStr t) =
        toLowerChar c :: lowerStr t
      rw [dropTrailing_cons, ih2]
      rw [ht] at hg
      have hemp : (lowerStr t).isEmpty = t.isEmpty := by
        cases t <;> simp [lowerStr]
      rw [if_neg (by
        rw [isWhitespace_toLowerChar, hemp]
        exact hg)]

/-- A string equal to its own trim is free of leading whitespace. -/
theorem dropWhile_of_trim_eq {l : List Char} (h : trim l = l) :
    l.dropWhile isWhitespace = l := by
  unfold trim at h
  have h1 := dropTrailing_length_le isWhitespace (l.dropWhile isWhitespace)
  have h2 := (List.dropWhile_suffix (l := l) isWhitespace).length_le
  have hlen := congrArg List.length h
  simp only at hlen
  exact (List.dropWhile_suffix isWhitespace).sublist.eq_of_length (by omega)

/-- A string equal to its own trim is free of trailing whitespace. -/
theorem dropTrailing_of_trim_eq {l : List Char} (h : trim l = l) :
    dropTrailing isWhitespace l = l := by
  have hdw := dropWhile_of_trim_eq h
  unfold trim at h
  rwa [hdw] at h

theorem trim_lowerStr {l : List Char} (h : trim l = l) :
    trim (lowerStr l) = lowerStr l := by
  unfold trim
  rw [dropWhile_lowerStr (dropWhile_of_trim_eq h),
    dropTrailing_lowerStr (dropTrailing_of_trim_eq h)]

/-! ### Normalization lemmas for the shipped `normalizeTx` -/

theorem lowerStr_length (l : List Char) : (lowerStr l).length = l.length := by
  simp [lowerStr]

theorem lowerStr_idem (l : List Char) : lowerStr (lowerStr l) = lowerStr l := by
  simp only [lowerStr, List.map_map]
  exact List.map_congr_left fun c _ => toLowerChar_idem c

theorem startsWith0x_nil : startsWith0x [] = false := rfl

theorem startsWith0x_single (c : Char) : startsWith0x [c] = false := rfl

theorem startsWith0x_cons2 (c0 c1 : Char) (r : List Char) :
    startsWith0x (c0 :: c1 :: r) = (c0 == '0' && c1 == 'x') := rfl

theorem startsWith0x_iff {s : List Char} :
    startsWith0x s = true ↔ ∃ r, s = '0' :: 'x' :: r := by
  cases s with
  | nil => simp [startsWith0x_nil]
  | cons c0 t =>
    cases t with
    | nil => simp [startsWith0x_single]
    | cons c1 r =>
      rw [startsWith0x_cons2]
      simp [List.cons.injEq, and_assoc]

theorem startsWith0x_lowerStr {l : List Char} (h : startsWith0x l = true) :
    startsWith0x (lowerStr l) = true := by
  obtain ⟨r, rfl⟩ := startsWith0x_iff.mp h
  rfl

theorem isHexString_lowerStr {l : List Char} (h : isHexString l = true) :
    isHexString (lowerStr l) = true := by
  simp only [isHexString, List.all_eq_true] at h ⊢
  intro c hc
  simp only [lowerStr, List.mem_map] at hc
  obtain ⟨d, hd, rfl⟩ := hc
  exact hex_toLowerChar (h d hd)

theorem normalizeTx_def (tx : List Char) :
    normalizeTx tx =
      if startsWith0x (trim tx) = true ∨
          ((trim tx).length = 64 ∧ isHexString (trim tx) = true) then
        lowerStr (trim tx)
      else trim tx := rfl

theorem normalizeTx_idem (s : List Char) :
    normalizeTx (normalizeTx s) = normalizeTx s := by
  rw [normalizeTx_def s]
  by_cases h : startsWith0x (trim s) = true ∨
      ((trim s).length = 64 ∧ isHexString (trim s) = true)
  · rw [if_pos h, normalizeTx_def]
    have htr : trim (lowerStr (trim s)) = lowerStr (trim s) :=
      trim_lowerStr (trim_idem s)
    have hc2 : startsWith0x (trim (lowerStr (trim s))) = true ∨
        ((trim (lowerStr (trim s))).length = 64 ∧
          isHexString (trim (lowerStr (trim s))) = true) := by
      rw [htr]
      rcases h with h1 | ⟨h2, h3⟩
      · exact Or.inl (startsWith0x_lowerStr h1)
      · exact Or.inr ⟨by rw [lowerStr_length]; exact h2, isHexString_lowerStr h3⟩
    rw [if_pos hc2, htr]
    exact lowerStr_idem _
  · rw [if_neg h, normalizeTx_def, trim_idem, if_neg h]

theorem normalizeTx_length_le (s : List Char) :
    (normalizeTx s).length ≤ s.length := by
  rw [normalizeTx_def]
  by_cases h : startsWith0x (trim s) = true ∨
      ((trim s).length = 64 ∧ isHexString (trim s) = true)
  · rw [if_pos h, lowerStr_length]
    exact trim_length_le s
  · rw [if_neg h]
    exact trim_length_le s

/-! ### Branch analysis of the shipped `detectChainCore` -/

theorem detectChainCore_eq_evm {n : List Char}
    (h : detectChainCore n = .evm) : evmShape n := by
  unfold detectChainCore at h
  split_ifs at h with h1 h2 h3 h4 h5 <;> try exact absurd h (by decide)
  obtain ⟨r, rfl⟩ := startsWith0x_iff.mp h2
  refine ⟨r, rfl, ?_, ?_⟩
  · simpa using h3.1
  · simpa using h3.2

theorem detectChainCore_eq_bitcoin {n : List Char}
    (h : detectChainCore n = .bitcoin) : bitcoinShape n := by
  unfold detectChainCore at h
  split_ifs at h with h1 h2 h3 h4 h5 <;> try exact absurd h (by decide)
  exact ⟨h4.1, h4.2, by simpa using h2⟩

theorem detectChainCore_eq_solana {n : List Char}
    (h : detectChainCore n = .solana) : solanaShape n := by
  unfold detectChainCore at h
  split_ifs at h with h1 h2 h3 h4 h5 <;> try exact absurd h (by decide)
  exact h5

/-! ### Lemmas about the modelled URL extraction and normalization -/

theorem length_takeWhile_le (p : Char → Bool) (l : List Char) :
    (l.takeWhile p).length ≤ l.length := by
  induction l with
  | nil => simp [List.takeWhile]
  | cons c t ih =>
    by_cases h : p c
    · rw [List.takeWhile_cons_of_pos h]
      simp only [List.length_cons]
      omega
    · rw [List.takeWhile_cons_of_neg h]
      simp

theorem scanFor_cons (check : List Char → Option (List Char)) (c : Char)
    (rest : List Char) :
    Spec.scanFor check (c :: rest) =
      match check (c :: rest) with
      | some r => some r
      | none => Spec.scanFor check rest := rfl

theorem scanFor_some {check : List Char → Option (List Char)}
    {s r : List Char} (h : Spec.scanFor check s = some r) :
    ∃ t, t <:+ s ∧ check t = some r := by
  induction s with
  | nil => simp [Spec.scanFor] at h
  | cons c rest ih =>
    rw [scanFor_cons] at h
    cases hc : check (c :: rest) with
    | some r2 =>
      rw [hc] at h
      simp only [Option.some.injEq] at h
      subst h
      exact ⟨c :: rest, List.suffix_refl _, hc⟩
    | none =>
      rw [hc] at h
      obtain ⟨t, hsuf, hch⟩ := ih h
      exact ⟨t, hsuf.trans (List.suffix_cons c rest), hch⟩

theorem evmTxCheck_bounds {t r : List Char} (h : Spec.evmTxCheck t = some r) :
    70 ≤ t.length ∧ r.length ≤ t.length := by
  simp only [Spec.evmTxCheck] at h
  split_ifs at h with h1 h2
  · have hp := (List.isPrefixOf_iff_prefix.mp h1).length_le
    simp only [Option.some.injEq] at h
    obtain ⟨hc64, _⟩ := h2
    simp only [List.length_take, List.length_drop] at hc64
    have hr : r.length = 66 := by
      rw [← h]
      simp only [List.length_cons, List.length_take, List.length_drop]
      omega
    simp only [List.length_cons] at hp
    constructor <;> omega

theorem solTxCheck_bounds {t r : List Char} (h : Spec.solTxCheck t = some r) :
    84 ≤ t.length ∧ r.length ≤ t.length := by
  simp only [Spec.solTxCheck] at h
  split_ifs at h with h1 h2
  · have hp := (List.isPrefixOf_iff_prefix.mp h1).length_le
    simp only [Option.some.injEq] at h
    have hrun : ((t.drop 4).takeWhile
        (fun c => BASE58_CHARS.contains c)).length ≤ (t.drop 4).length :=
      length_takeWhile_le _ _
    simp only [List.length_drop] at hrun
    have hr : r.length ≤ ((t.drop 4).takeWhile
        (fun c => BASE58_CHARS.contains c)).length := by
      rw [← h]
      simp [List.length_take]
    simp only [List.length_cons] at hp
    constructor <;> omega

theorem btcTxCheck_bounds {t r : List Char} (h : Spec.btcTxCheck t = some r) :
    68 ≤ t.length ∧ r.length ≤ t.length := by
  simp only [Spec.btcTxCheck] at h
  split_ifs at h with h1 h2
  · have hp := (List.isPrefixOf_iff_prefix.mp h1).length_le
    simp only [Option.some.injEq] at h
    obtain ⟨hc64, _⟩ := h2
    simp only [List.length_take, List.length_drop] at hc64
    have hr : r.length = 64 := by
      rw [← h]
      simp only [List.length_take, List.length_drop]
      omega
    simp only [List.length_cons] at hp
    constructor <;> omega

theorem anyEvmCheck_bounds {t r : List Char} (h : Spec.anyEvmCheck t = some r) :
    66 ≤ t.length ∧ r.length ≤ t.length := by
  unfold Spec.anyEvmCheck at h
  match t, h with
  | c0 :: c1 :: rest, h =>
    simp only at h
    split_ifs at h with h1 h2
    · simp only [Option.some.injEq] at h
      obtain ⟨hc64, _⟩ := h2
      simp only [List.length_take] at hc64
      have hr : r.length = 66 := by
        rw [← h]
        simp only [List.length_cons, List.length_take]
        omega
      simp only [List.length_cons]
      constructor <;> omega

theorem pathEndHexCheck_bounds {t r : List Char}
    (h : Spec.pathEndHexCheck t = some r) :
    65 ≤ t.length ∧ r.length ≤ t.length := by
  unfold Spec.pathEndHexCheck at h
  match t, h with
  | c :: rest, h =>
    simp only at h
    split_ifs at h with h1 h2
    · simp only [Option.some.injEq] at h
      obtain ⟨hc64, _⟩ := h2
      have hr : r.length = 64 := by rw [← h]; exact hc64
      simp only [List.length_cons]
      constructor <;> omega

theorem extractFromUrl_bounds {s r : List Char}
    (h : Spec.extractFromUrl s = some r) :
    65 ≤ s.length ∧ r.length ≤ s.length := by
  unfold Spec.extractFromUrl at h
  have step : ∀ (check : List Char → Option (List Char)) (bound : Nat),
      (∀ t' r', check t' = some r' →
        bound ≤ t'.length ∧ r'.length ≤ t'.length) →
      Spec.scanFor check s = some r →
      bound ≤ s.length ∧ r.length ≤ s.length := by
    intro check bound hck hscan
    obtain ⟨t, hsuf, hch⟩ := scanFor_some hscan
    obtain ⟨hb, hr⟩ := hck t r hch
    have := hsuf.length_le
    constructor <;> omega
  cases h1 : Spec.scanFor Spec.evmTxCheck s with
  | some r1 =>
    rw [h1] at h
    simp only [Option.some.injEq] at h
    subst h
    have := step Spec.evmTxCheck 70 (fun _ _ => evmTxCheck_bounds) h1
    constructor <;> omega
  | none =>
    rw [h1] at h
    cases h2 : Spec.scanFor Spec.solTxCheck s with
    | some r2 =>
      rw [h2] at h
      simp only [Option.some.injEq] at h
      subst h
      have := step Spec.solTxCheck 84 (fun _ _ => solTxCheck_bounds) h2
      constructor <;> omega
    | none =>
      rw [h2] at h
      cases h3 : Spec.scanFor Spec.btcTxCheck s with
      | some r3 =>
        rw [h3] at h
        simp only [Option.some.injEq] at h
        subst h
        have := step Spec.btcTxCheck 68 (fun _ _ => btcTxCheck_bounds) h3
        constructor <;> omega
      | none =>
        rw [h3] at h
        cases h4 : Spec.scanFor Spec.anyEvmCheck s with
        | some r4 =>
          rw [h4] at h
          simp only [Option.some.injEq] at h
          subst h
          have := step Spec.anyEvmCheck 66 (fun _ _ => anyEvmCheck_bounds) h4
          constructor <;> omega
        | none =>
          rw [h4] at h
          have := step Spec.pathEndHexCheck 65
            (fun _ _ => pathEndHexCheck_bounds) h
          constructor <;> omega

theorem rewrite0X_length (s : List Char) :
    (Spec.rewrite0X s).length = s.length := by
  unfold Spec.rewrite0X
  match s with
  | [] => rfl
  | [c] => rfl
  | c0 :: c1 :: rest =>
    simp only
    split_ifs with h
    · simp
    · rfl

theorem caseStep_length (p : List Char) :
    (Spec.caseStep p).length = p.length := by
  unfold Spec.caseStep
  split_ifs with h
  · exact lowerStr_length p
  · rfl

theorem extractStep_length_le (c : List Char) :
    (Spec.extractStep c).length ≤ c.length := by
  unfold Spec.extractStep
  split_ifs with h
  · cases he : Spec.extractFromUrl c with
    | some id =>
      simp only
      exact (extractFromUrl_bounds he).2
    | none => simp only; exact le_refl _
  · exact le_refl _

theorem spec_normalize_length_le (raw : List Char) :
    (Spec.normalize raw).length ≤ raw.length := by
  unfold Spec.normalize
  rw [caseStep_length, rewrite0X_length]
  calc (Spec.extractStep (Spec.removeWhitespace raw)).length
      ≤ (Spec.removeWhitespace raw).length := extractStep_length_le _
    _ ≤ raw.length := List.length_filter_le _ _

theorem detectCore_short {n : List Char} (h : n.length < 20) :
    Spec.detectCore n = (.unknown, .unknown) := by
  unfold Spec.detectCore
  rw [if_pos h]

theorem detectChainCore_short {n : List Char} (h : n.length < 20) :
    detectChainCore n = .unknown := by
  unfold detectChainCore
  split_ifs with h1 h2 h3 h4 h5
  · rfl
  · exfalso
    obtain ⟨h64, _⟩ := h3
    simp only [List.length_drop] at h64
    omega
  · rfl
  · exfalso
    obtain ⟨h64, _⟩ := h4
    omega
  · exfalso
    obtain ⟨h80, _⟩ := h5
    omega
  · rfl

theorem removeWhitespace_eq_nil {raw : List Char}
    (h : raw.all isWhitespace = true) : Spec.removeWhitespace raw = [] := by
  unfold Spec.removeWhitespace
  rw [List.filter_eq_nil_iff]
  intro c hc
  simp only [List.all_eq_true] at h
  simp [h c hc]

theorem trim_eq_nil {raw : List Char} (h : raw.all isWhitespace = true) :
    trim raw = [] := by
  unfold trim
  have : raw.dropWhile isWhitespace = [] := by
    rw [List.dropWhile_eq_nil_iff]
    intro c hc
    simp only [List.all_eq_true] at h
    exact h c hc
  rw [this]
  rfl

/-! ### Lemmas for URL-likeness and hex-shaped inputs -/

theorem containsSub_cons (pat : List Char) (a : Char) (rest : List Char) :
    Spec.containsSub pat (a :: rest) =
      (pat.isPrefixOf (a :: rest) || Spec.containsSub pat rest) := rfl

theorem containsSub_mem {pat s : List Char}
    (h : Spec.containsSub pat s = true) : ∀ c ∈ pat, c ∈ s := by
  induction s with
  | nil =>
    intro c hc
    simp only [Spec.containsSub, List.isEmpty_iff] at h
    subst h
    simp at hc
  | cons a rest ih =>
    intro c hc
    rw [containsSub_cons] at h
    rcases Bool.or_eq_true _ _ |>.mp h with hp | hp
    · exact (List.isPrefixOf_iff_prefix.mp hp).subset hc
    · exact List.mem_cons_of_mem a (ih hp c hc)

theorem looksLikeUrl_false {s : List Char} (h1 : ':' ∉ s) (h2 : '.' ∉ s) :
    Spec.looksLikeUrl s = false := by
  unfold Spec.looksLikeUrl
  rw [List.any_eq_false]
  intro m hm
  fin_cases hm
  · intro hc
    exact h1 (containsSub_mem hc ':' (by decide))
  · intro hc
    exact h2 (containsSub_mem hc '.' (by decide))
  · intro hc
    exact h2 (containsSub_mem hc '.' (by decide))
  · intro hc
    exact h2 (containsSub_mem hc '.' (by decide))
  · intro hc
    exact h2 (containsSub_mem hc '.' (by decide))
  · intro hc
    exact h2 (containsSub_mem hc '.' (by decide))

theorem lowerStr_startsWith0x_cases {a : List Char}
    (h : startsWith0x (lowerStr a) = true) :
    ∃ c1 r, a = '0' :: c1 :: r ∧ (c1 = 'x' ∨ c1 = 'X') := by
  obtain ⟨r2, hr2⟩ := startsWith0x_iff.mp h
  cases a with
  | nil => simp [lowerStr] at hr2
  | cons c0 t =>
    cases t with
    | nil => simp [lowerStr] at hr2
    | cons c1 r =>
      simp only [lowerStr, List.map_cons, List.cons.injEq] at hr2
      obtain ⟨h0, h1, _⟩ := hr2
      exact ⟨c1, r, by rw [toLowerChar_eq_zero h0], toLowerChar_eq_x h1⟩

theorem rewrite0X_cons2 (c0 c1 : Char) (r : List Char) :
    Spec.rewrite0X (c0 :: c1 :: r) =
      if c0 == '0' && c1 == 'X' then '0' :: 'x' :: r else c0 :: c1 :: r := rfl

/-- A whitespace-free, URL-marker-free input that lower-cases to a
`0x`-prefixed string is normalized by the modelled pipeline to its own
lower-casing. -/
theorem normalize_hexish {a : List Char}
    (ha : ∀ c ∈ a, HEX_CHARS.contains c = true ∨ c = 'x' ∨ c = 'X')
    (hpa : startsWith0x (lowerStr a) = true) :
    Spec.normalize a = lowerStr a := by
  have hclean : Spec.removeWhitespace a = a := by
    unfold Spec.removeWhitespace
    rw [List.filter_eq_self]
    intro c hc
    rcases ha c hc with h | h | h
    · simp [(hex_char_facts h).1]
    · subst h
      decide
    · subst h
      decide
  have hcolon : ':' ∉ a := by
    intro hmem
    rcases ha ':' hmem with h | h | h
    · exact absurd h (by decide)
    · exact absurd h (by decide)
    · exact absurd h (by decide)
  have hdot : '.' ∉ a := by
    intro hmem
    rcases ha '.' hmem with h | h | h
    · exact absurd h (by decide)
    · exact absurd h (by decide)
    · exact absurd h (by decide)
  have hurl : Spec.looksLikeUrl a = false := looksLikeUrl_false hcolon hdot
  unfold Spec.normalize Spec.extractStep
  rw [hclean, if_neg (by rw [hurl]; exact Bool.false_ne_true)]
  obtain ⟨c1, r, rfl, hc1⟩ := lowerStr_startsWith0x_cases hpa
  rcases hc1 with rfl | rfl
  · rw [rewrite0X_cons2, if_neg (by decide)]
    unfold Spec.caseStep
    rw [if_pos (Or.inl (by rw [startsWith0x_cons2]; decide))]
  · rw [rewrite0X_cons2, if_pos (by decide)]
    unfold Spec.caseStep
    rw [if_pos (Or.inl (by rw [startsWith0x_cons2]; decide))]
    simp only [lowerStr, List.map_cons, List.cons.injEq]
    exact ⟨trivial, by decide, trivial⟩

theorem checkContamination_congr {a b : List Char}
    {entries : List BlacklistEntry} (h : normalizeValue a = normalizeValue b) :
    checkContamination a entries = checkContamination b entries := by
  unfold checkContamination
  rw [h]

/-! ### Lemmas for the URL round trip -/

theorem scanFor_cons_of_none {check : List Char → Option (List Char)}
    {c : Char} {rest : List Char} (h : check (c :: rest) = none) :
    Spec.scanFor check (c :: rest) = Spec.scanFor check rest := by
  rw [scanFor_cons, h]

theorem scanFor_eq_none {check : List Char → Option (List Char)}
    {s : List Char} (H : ∀ t, t <:+ s → check t = none) :
    Spec.scanFor check s = none := by
  induction s with
  | nil => rfl
  | cons c rest ih =>
    rw [scanFor_cons, H (c :: rest) (List.suffix_refl _)]
    exact ih fun t ht => H t (ht.trans (List.suffix_cons c rest))

theorem suffix_append_cases {t a b : List Char} (h : t <:+ a ++ b) :
    t <:+ b ∨ ∃ a2, a2 <:+ a ∧ a2 ≠ [] ∧ t = a2 ++ b := by
  induction a with
  | nil => exact Or.inl (by simpa using h)
  | cons x a2 ih =>
    rw [List.cons_append, List.suffix_cons_iff] at h
    rcases h with h | h
    · exact Or.inr ⟨x :: a2, List.suffix_refl _, by simp, h⟩
    · rcases ih h with h2 | ⟨a3, h3, h4, h5⟩
      · exact Or.inl h2
      · exact Or.inr ⟨a3, h3.trans (List.suffix_cons x a2), h4, h5⟩

/-- Characters appearing in identifiers (hex digits or base58). -/
def isIdChar (c : Char) : Prop :=
  HEX_CHARS.contains c = true ∨ BASE58_CHARS.contains c = true

theorem idChar_facts {c : Char} (h : isIdChar c) :
    c ≠ '/' ∧ c ≠ ':' ∧ c ≠ '.' ∧ isWhitespace c = false := by
  rcases h with h | h
  · obtain ⟨hw, hc, hd, hs, _, _, _⟩ := hex_char_facts h
    exact ⟨hs, hc, hd, hw⟩
  · obtain ⟨hw, _, hc, hd, hs⟩ := b58_char_facts h
    exact ⟨hs, hc, hd, hw⟩

theorem evmTxCheck_none_of_head {c : Char} {r : List Char} (hc : c ≠ '/') :
    Spec.evmTxCheck (c :: r) = none := by
  simp only [Spec.evmTxCheck]
  rw [if_neg]
  simp [List.isPrefixOf]
  intro h
  exact absurd h.symm hc

theorem solTxCheck_none_of_head {c : Char} {r : List Char} (hc : c ≠ '/') :
    Spec.solTxCheck (c :: r) = none := by
  simp only [Spec.solTxCheck]
  rw [if_neg]
  simp [List.isPrefixOf]
  intro h
  exact absurd h.symm hc

theorem btcTxCheck_none_of_head {c : Char} {r : List Char} (hc : c ≠ '/') :
    Spec.btcTxCheck (c :: r) = none := by
  simp only [Spec.btcTxCheck]
  rw [if_neg]
  simp [List.isPrefixOf]
  intro h
  exact absurd h.symm hc

/-- Pattern 1 fails on every suffix of a pure identifier string. -/
theorem evmTxCheck_none_idsuffix {idl t : List Char}
    (hall : ∀ c ∈ idl, isIdChar c) (ht : t <:+ idl) :
    Spec.evmTxCheck t = none := by
  cases t with
  | nil => rfl
  | cons c r =>
    exact evmTxCheck_none_of_head
      (idChar_facts (hall c (ht.subset (by simp)))).1

/-- Pattern 2 fails on every suffix of a pure identifier string. -/
theorem solTxCheck_none_idsuffix {idl t : List Char}
    (hall : ∀ c ∈ idl, isIdChar c) (ht : t <:+ idl) :
    Spec.solTxCheck t = none := by
  cases t with
  | nil => rfl
  | cons c r =>
    exact solTxCheck_none_of_head
      (idChar_facts (hall c (ht.subset (by simp)))).1

theorem hex_all_idChar {h : List Char} (hh : isHexString h = true) :
    ∀ c ∈ h, isIdChar c := by
  intro c hc
  simp only [isHexString, List.all_eq_true] at hh
  exact Or.inl (hh c hc)

theorem b58_all_idChar {h : List Char} (hh : isBase58String h = true) :
    ∀ c ∈ h, isIdChar c := by
  intro c hc
  simp only [isBase58String, List.all_eq_true] at hh
  exact Or.inr (hh c hc)

theorem hex_mem_facts {h : List Char} (hh : isHexString h = true) {c : Char}
    (hc : c ∈ h) :
    isWhitespace c = false ∧ c ≠ ':' ∧ c ≠ '.' ∧ c ≠ '/' ∧ c ≠ 't' ∧
      c ≠ 'x' ∧ c ≠ 'X' := by
  simp only [isHexString, List.all_eq_true] at hh
  exact hex_char_facts (hh c hc)

theorem b58_mem_facts {h : List Char} (hh : isBase58String h = true)
    {c : Char} (hc : c ∈ h) :
    isWhitespace c = false ∧ c ≠ '0' ∧ c ≠ ':' ∧ c ≠ '.' ∧ c ≠ '/' := by
  simp only [isBase58String, List.all_eq_true] at hh
  exact b58_char_facts (hh c hc)

/-- Pattern 1 fails at a bare `/` followed by hex (second pattern
character `t` cannot match a hex digit). -/
theorem evmTxCheck_none_slash_hex {h0 : Char} {r : List Char}
    (hx : HEX_CHARS.contains h0 = true) :
    Spec.evmTxCheck ('/' :: h0 :: r) = none := by
  simp only [Spec.evmTxCheck]
  rw [if_neg]
  simp only [List.isPrefixOf, Bool.and_eq_true, beq_iff_eq]
  intro hcon
  exact absurd hcon.2.1.symm (hex_char_facts hx).2.2.2.2.1

/-- Pattern 1 fails at `/tx/` followed by hex (pattern character `x`
cannot match the second hex digit). -/
theorem evmTxCheck_none_tx_hex {h0 h1 : Char} {r : List Char}
    (hx : HEX_CHARS.contains h1 = true) :
    Spec.evmTxCheck ('/' :: 't' :: 'x' :: '/' :: h0 :: h1 :: r) = none := by
  simp only [Spec.evmTxCheck]
  rw [if_neg]
  simp only [List.isPrefixOf, Bool.and_eq_true, beq_iff_eq]
  intro hcon
  exact absurd hcon.2.2.2.2.2.1.symm (hex_char_facts hx).2.2.2.2.2.1

/-- Pattern 1 fails at a bare `/` followed by base58 (pattern character
`/` in position 3 cannot match a base58 character). -/
theorem evmTxCheck_none_slash_b58 {s0 s1 s2 : Char} {r : List Char}
    (hx : BASE58_CHARS.contains s2 = true) :
    Spec.evmTxCheck ('/' :: s0 :: s1 :: s2 :: r) = none := by
  simp only [Spec.evmTxCheck]
  rw [if_neg]
  simp only [List.isPrefixOf, Bool.and_eq_true, beq_iff_eq]
  intro hcon
  exact absurd hcon.2.2.2.1.symm (b58_char_facts hx).2.2.2.2

/-- Pattern 1 fails at `/tx/` followed by base58 (pattern character `0`
cannot match a base58 character). -/
theorem evmTxCheck_none_tx_b58 {s0 : Char} {r : List Char}
    (hx : BASE58_CHARS.contains s0 = true) :
    Spec.evmTxCheck ('/' :: 't' :: 'x' :: '/' :: s0 :: r) = none := by
  simp only [Spec.evmTxCheck]
  rw [if_neg]
  simp only [List.isPrefixOf, Bool.and_eq_true, beq_iff_eq]
  intro hcon
  exact absurd hcon.2.2.2.2.1.symm (b58_char_facts hx).2.1

/-- Pattern 2 fails at a bare `/` followed by hex. -/
theorem solTxCheck_none_slash_hex {h0 : Char} {r : List Char}
    (hx : HEX_CHARS.contains h0 = true) :
    Spec.solTxCheck ('/' :: h0 :: r) = none := by
  simp only [Spec.solTxCheck]
  rw [if_neg]
  simp only [List.isPrefixOf, Bool.and_eq_true, beq_iff_eq]
  intro hcon
  exact absurd hcon.2.1.symm (hex_char_facts hx).2.2.2.2.1

/-- Pattern 2 fails at `/tx/` followed by at most 64 characters. -/
theorem solTxCheck_none_tx_short {h : List Char} (hle : h.length ≤ 64) :
    Spec.solTxCheck ('/' :: 't' :: 'x' :: '/' :: h) = none := by
  simp only [Spec.solTxCheck]
  have hd : ('/' :: 't' :: 'x' :: '/' :: h).drop 4 = h := rfl
  rw [hd]
  have hrun := length_takeWhile_le (fun c => BASE58_CHARS.contains c) h
  rw [if_pos (by simp [List.isPrefixOf])]
  rw [if_neg (by omega)]

theorem containsSub_nil_pat (s : List Char) :
    Spec.containsSub [] s = true := by
  cases s with
  | nil => rfl
  | cons c rest => rw [containsSub_cons]; simp [List.isPrefixOf]

theorem containsSub_append_left {pat a b : List Char}
    (h : Spec.containsSub pat a = true) :
    Spec.containsSub pat (a ++ b) = true := by
  induction a with
  | nil =>
    simp only [Spec.containsSub, List.isEmpty_iff] at h
    subst h
    exact containsSub_nil_pat b
  | cons x a2 ih =>
    rw [containsSub_cons] at h
    rw [List.cons_append, containsSub_cons]
    rcases Bool.or_eq_true _ _ |>.mp h with hp | hp
    · have : pat.isPrefixOf (x :: a2 ++ b) = true :=
        List.isPrefixOf_iff_prefix.mpr
          ((List.isPrefixOf_iff_prefix.mp hp).trans
            (List.prefix_append (x :: a2) b))
      rw [List.cons_append] at this
      rw [this]
      rfl
    · rw [ih hp]
      simp

theorem looksLikeUrl_scheme {s : List Char}
    (h : Spec.containsSub ( "://".data) s = true) :
    Spec.looksLikeUrl s = true := by
  unfold Spec.looksLikeUrl
  rw [List.any_eq_true]
  exact ⟨ "://".data, by decide, h⟩

theorem removeWhitespace_append (a b : List Char) :
    Spec.removeWhitespace (a ++ b) =
      Spec.removeWhitespace a ++ Spec.removeWhitespace b := by
  simp [Spec.removeWhitespace]

theorem removeWhitespace_id {idl : List Char}
    (hall : ∀ c ∈ idl, isIdChar c) : Spec.removeWhitespace idl = idl := by
  unfold Spec.removeWhitespace
  rw [List.filter_eq_self]
  intro c hc
  simp [(idChar_facts (hall c hc)).2.2.2]

theorem looksLikeUrl_id {idl : List Char} (hall : ∀ c ∈ idl, isIdChar c) :
    Spec.looksLikeUrl idl = false :=
  looksLikeUrl_false
    (fun hmem => (idChar_facts (hall _ hmem)).2.1 rfl)
    (fun hmem => (idChar_facts (hall _ hmem)).2.2.1 rfl)

theorem normalize_of_extract {u idv : List Char}
    (hclean : Spec.removeWhitespace u = u)
    (hurl : Spec.looksLikeUrl u = true)
    (hex : Spec.extractFromUrl u = some idv) :
    Spec.normalize u = Spec.caseStep (Spec.rewrite0X idv) := by
  unfold Spec.normalize Spec.extractStep
  rw [hclean, if_pos hurl, hex]

theorem normalize_of_id {idv : List Char}
    (hclean : Spec.removeWhitespace idv = idv)
    (hurl : Spec.looksLikeUrl idv = false) :
    Spec.normalize idv = Spec.caseStep (Spec.rewrite0X idv) := by
  unfold Spec.normalize Spec.extractStep
  rw [hclean, if_neg (by rw [hurl]; exact Bool.false_ne_true)]

/-! ### The three explorer URL templates -/

theorem ether_scan_evm {h : List Char} (hlen : h.length = 64)
    (hhex : isHexString h = true) :
    Spec.scanFor Spec.evmTxCheck ( "https://etherscan.io/tx/0x".data ++ h) =
      some ('0' :: 'x' :: h) := by
  have hP : "https://etherscan.io/tx/0x".data ++ h =
      'h' :: 't' :: 't' :: 'p' :: 's' :: ':' :: '/' :: '/' :: 'e' :: 't' :: 'h' :: 'e' :: 'r' :: 's' ::
      'c' :: 'a' :: 'n' :: '.' :: 'i' :: 'o' :: ('/' :: 't' :: 'x' :: '/' :: '0' :: 'x' :: h) := rfl
  rw [hP]
  repeat rw [scanFor_cons_of_none rfl]
  rw [scanFor_cons]
  have hc : Spec.evmTxCheck ('/' :: 't' :: 'x' :: '/' :: '0' :: 'x' :: h) =
      some ('0' :: 'x' :: h) := by
    have ht : h.take 64 = h := by
      rw [← hlen]
      exact List.take_length h
    simp only [Spec.evmTxCheck]
    have hd : ('/' :: 't' :: 'x' :: '/' :: '0' :: 'x' :: h).drop 6 = h := rfl
    rw [hd, ht]
    split_ifs with h1 h2
    · rfl
    · exact absurd ⟨hlen, hhex⟩ h2
    · exact absurd (by simp [List.isPrefixOf]) h1
  rw [hc]

theorem mempool_evm_none {h : List Char} (hlen : h.length = 64)
    (hhex : isHexString h = true) :
    Spec.scanFor Spec.evmTxCheck ( "https://mempool.space/tx/".data ++ h) =
      none := by
  apply scanFor_eq_none
  intro t ht
  rcases suffix_append_cases ht with ht | ⟨a2, h2, hne, rfl⟩
  · exact evmTxCheck_none_idsuffix (hex_all_idChar hhex) ht
  · rw [← List.mem_tails] at h2
    obtain ⟨h0, h1, r, rfl⟩ : ∃ h0 h1 r, h = h0 :: h1 :: r := by
      match h, hlen with
      | h0 :: h1 :: r, _ => exact ⟨h0, h1, r, rfl⟩
    have hx1 : HEX_CHARS.contains h1 = true := by
      simp only [isHexString, List.all_eq_true] at hhex
      exact hhex h1 (by simp)
    have hx0 : HEX_CHARS.contains h0 = true := by
      simp only [isHexString, List.all_eq_true] at hhex
      exact hhex h0 (by simp)
    fin_cases h2 <;>
      first
        | exact absurd rfl hne
        | rfl
        | exact evmTxCheck_none_tx_hex hx1
        | exact evmTxCheck_none_slash_hex hx0

theorem mempool_sol_none {h : List Char} (hlen : h.length = 64)
    (hhex : isHexString h = true) :
    Spec.scanFor Spec.solTxCheck ( "https://mempool.space/tx/".data ++ h) =
      none := by
  apply scanFor_eq_none
  intro t ht
  rcases suffix_append_cases ht with ht | ⟨a2, h2, hne, rfl⟩
  · exact solTxCheck_none_idsuffix (hex_all_idChar hhex) ht
  · rw [← List.mem_tails] at h2
    obtain ⟨h0, r, rfl⟩ : ∃ h0 r, h = h0 :: r := by
      match h, hlen with
      | h0 :: r, _ => exact ⟨h0, r, rfl⟩
    have hx0 : HEX_CHARS.contains h0 = true := by
      simp only [isHexString, List.all_eq_true] at hhex
      exact hhex h0 (by simp)
    have hle : (h0 :: r).length ≤ 64 := by
      simp only [List.length_cons] at hlen ⊢
      omega
    fin_cases h2 <;>
      first
        | exact absurd rfl hne
        | rfl
        | exact solTxCheck_none_tx_short hle
        | exact solTxCheck_none_slash_hex hx0

theorem mempool_scan_btc {h : List Char} (hlen : h.length = 64)
    (hhex : isHexString h = true) :
    Spec.scanFor Spec.btcTxCheck ( "https://mempool.space/tx/".data ++ h) =
      some h := by
  have hP : "https://mempool.space/tx/".data ++ h =
      'h' :: 't' :: 't' :: 'p' :: 's' :: ':' :: '/' :: '/' :: 'm' :: 'e' :: 'm' :: 'p' :: 'o' :: 'o' ::
      'l' :: '.' :: 's' :: 'p' :: 'a' :: 'c' :: 'e' :: ('/' :: 't' :: 'x' :: '/' :: h) := rfl
  rw [hP]
  repeat rw [scanFor_cons_of_none rfl]
  rw [scanFor_cons]
  have hc : Spec.btcTxCheck ('/' :: 't' :: 'x' :: '/' :: h) = some h := by
    have ht : h.take 64 = h := by
      rw [← hlen]
      exact List.take_length h
    simp only [Spec.btcTxCheck]
    have hd : ('/' :: 't' :: 'x' :: '/' :: h).drop 4 = h := rfl
    rw [hd, ht]
    split_ifs with h1 h2
    · rfl
    · exact absurd ⟨hlen, hhex⟩ h2
    · exact absurd (by simp [List.isPrefixOf]) h1
  rw [hc]

theorem solscan_evm_none {sig : List Char} (hlen : 80 ≤ sig.length)
    (hb : isBase58String sig = true) :
    Spec.scanFor Spec.evmTxCheck ( "https://solscan.io/tx/".data ++ sig) =
      none := by
  apply scanFor_eq_none
  intro t ht
  rcases suffix_append_cases ht with ht | ⟨a2, h2, hne, rfl⟩
  · exact evmTxCheck_none_idsuffix (b58_all_idChar hb) ht
  · rw [← List.mem_tails] at h2
    obtain ⟨s0, s1, s2, r, rfl⟩ : ∃ s0 s1 s2 r, sig = s0 :: s1 :: s2 :: r := by
      match sig, hlen with
      | s0 :: s1 :: s2 :: r, _ => exact ⟨s0, s1, s2, r, rfl⟩
    have hb0 : BASE58_CHARS.contains s0 = true := by
      simp only [isBase58String, List.all_eq_true] at hb
      exact hb s0 (by simp)
    have hb2 : BASE58_CHARS.contains s2 = true := by
      simp only [isBase58String, List.all_eq_true] at hb
      exact hb s2 (by simp)
    fin_cases h2 <;>
      first
        | exact absurd rfl hne
        | rfl
        | exact evmTxCheck_none_tx_b58 hb0
        | exact evmTxCheck_none_slash_b58 hb2

theorem solscan_scan_sol {sig : List Char} (hlen80 : 80 ≤ sig.length)
    (hlen90 : sig.length ≤ 90) (hb : isBase58String sig = true) :
    Spec.scanFor Spec.solTxCheck ( "https://solscan.io/tx/".data ++ sig) =
      some sig := by
  have hP : "https://solscan.io/tx/".data ++ sig =
      'h' :: 't' :: 't' :: 'p' :: 's' :: ':' :: '/' :: '/' :: 's' :: 'o' :: 'l' :: 's' :: 'c' :: 'a' ::
      'n' :: '.' :: 'i' :: 'o' :: ('/' :: 't' :: 'x' :: '/' :: sig) := rfl
  rw [hP]
  repeat rw [scanFor_cons_of_none rfl]
  rw [scanFor_cons]
  have hc : Spec.solTxCheck ('/' :: 't' :: 'x' :: '/' :: sig) = some sig := by
    simp only [Spec.solTxCheck]
    have hd : ('/' :: 't' :: 'x' :: '/' :: sig).drop 4 = sig := rfl
    rw [hd]
    have hrun : sig.takeWhile (fun c => BASE58_CHARS.contains c) = sig := by
      rw [List.takeWhile_eq_self_iff]
      intro c hc
      simp only [isBase58String, List.all_eq_true] at hb
      exact hb c hc
    rw [hrun]
    have ht : sig.take 90 = sig := List.take_of_length_le hlen90
    rw [ht]
    split_ifs with h1 h2
    · rfl
    · exact absurd (by simp [List.isPrefixOf]) h1
  rw [hc]

theorem extract_ether {h : List Char} (hlen : h.length = 64)
    (hhex : isHexString h = true) :
    Spec.extractFromUrl ( "https://etherscan.io/tx/0x".data ++ h) =
      some ('0' :: 'x' :: h) := by
  unfold Spec.extractFromUrl
  rw [ether_scan_evm hlen hhex]

theorem extract_mempool {h : List Char} (hlen : h.length = 64)
    (hhex : isHexString h = true) :
    Spec.extractFromUrl ( "https://mempool.space/tx/".data ++ h) = some h := by
  unfold Spec.extractFromUrl
  rw [mempool_evm_none hlen hhex, mempool_sol_none hlen hhex,
    mempool_scan_btc hlen hhex]

theorem extract_solscan {sig : List Char} (hlen80 : 80 ≤ sig.length)
    (hlen90 : sig.length ≤ 90) (hb : isBase58String sig = true) :
    Spec.extractFromUrl ( "https://solscan.io/tx/".data ++ sig) = some sig := by
  unfold Spec.extractFromUrl
  rw [solscan_evm_none hlen80 hb, solscan_scan_sol hlen80 hlen90 hb]

/-- A 64-character hex string is not rewritten by the `0X` step (its
second character is hex, never `X`). -/
theorem rewrite0X_eq_self_of_hex {a : List Char} (hlen : a.length = 64)
    (hhex : isHexString a = true) : Spec.rewrite0X a = a := by
  obtain ⟨c0, c1, rest, rfl⟩ : ∃ c0 c1 rest, a = c0 :: c1 :: rest := by
    match a, hlen with
    | c0 :: c1 :: rest, _ => exact ⟨c0, c1, rest, rfl⟩
  have hx1 : HEX_CHARS.contains c1 = true := by
    simp only [isHexString, List.all_eq_true] at hhex
    exact hhex c1 (by simp)
  rw [rewrite0X_cons2, if_neg]
  simp only [Bool.and_eq_true, beq_iff_eq]
  intro hcon
  exact absurd hcon.2 (hex_char_facts hx1).2.2.2.2.2.2

/-- A bare 64-character hex string is normalized by the modelled
pipeline to its own lower-casing (via the 64-hex branch of step 4). -/
theorem normalize_hex64 {a : List Char} (hlen : a.length = 64)
    (hhex : isHexString a = true) : Spec.normalize a = lowerStr a := by
  have hid := hex_all_idChar hhex
  unfold Spec.normalize Spec.extractStep
  rw [removeWhitespace_id hid,
    if_neg (by rw [looksLikeUrl_id hid]; exact Bool.false_ne_true),
    rewrite0X_eq_self_of_hex hlen hhex]
  unfold Spec.caseStep
  rw [if_pos (Or.inr ⟨hlen, hhex⟩)]

/-! ### Claim theorems -/

/-- Claim C1: the spec says trivial all-zero / all-`f` payloads are
rejected as `Unknown`; the shipped `detectChain` has no trivial-hash
check and accepts them (contradicting the repository's own tests,
which assert `unknown` for exactly these inputs). -/
theorem c1_trivial_hashes_accepted :
    detectChain ('0' :: 'x' :: List.replicate 64 '0') = .evm ∧
    detectChain ('0' :: 'x' :: List.replicate 64 'f') = .evm ∧
    detectChain (List.replicate 64 '0') = .bitcoin := by
  refine ⟨?_, ?_, ?_⟩ <;> decide

/-- Claim C2: the spec requires a Solana candidate to contain a
character outside the hex alphabet; the shipped `detectChain` has no
such requirement and classifies an all-hex-valid string of signature
length as Solana (contradicting the README's documented
"non-hex characters" rule). -/
theorem c2_allhex_accepted_as_solana :
    detectChain (List.replicate 85 'a') = .solana ∧
    isHexString (List.replicate 85 'a') = true := by
  refine ⟨?_, ?_⟩ <;> decide

/-- Claim C3: the spec says normalization removes all whitespace,
including interior whitespace; the shipped `normalizeTx` only trims the
ends, so a hash split across lines keeps its interior newline
(contradicting the repository's own test
`normalizeTx('0x123\n456') == '0x123456'`). -/
theorem c3_interior_whitespace_kept :
    normalizeTx ( "0x123\n456".data) = "0x123\n456".data ∧
    '\n' ∈ normalizeTx ( "0x123\n456".data) := by
  refine ⟨?_, ?_⟩ <;> decide

/-- Claim C4: the spec says an uppercase `0X` prefix is rewritten to
`0x` and such inputs are detected as EVM; the shipped `normalizeTx`
checks `startsWith('0x')` case-sensitively and `isHexString` rejects
`X`, so the input is left unchanged and detection yields `unknown`
(contradicting the repository's own test for `0X` + 64 hex). -/
theorem c4_upper0X_not_rewritten :
    normalizeTx ('0' :: 'X' :: List.replicate 64 'A') =
      '0' :: 'X' :: List.replicate 64 'A' ∧
    detectChain ('0' :: 'X' :: List.replicate 64 'A') = .unknown := by
  refine ⟨?_, ?_⟩ <;> decide

/-- Claim C6: detection is idempotent with respect to normalization -
running the shipped `detectChain` on a raw string and on its
already-normalized form yields identical results. -/
theorem c6_detect_idempotent (s : List Char) :
    detectChain s = detectChain (normalizeTx s) := by
  show detectChainCore (normalizeTx s) =
    detectChainCore (normalizeTx (normalizeTx s))
  rw [normalizeTx_idem]

/-- Claim C10: a non-Unknown result of the shipped `detectChain`
constrains the normalized input's shape (EVM: `0x` + 64 hex; Bitcoin:
bare 64 hex; Solana: length 80-90 all base58), and the three accepting
shapes are pairwise disjoint. -/
theorem c10_accepting_shapes (s : List Char) :
    (detectChain s = .evm → evmShape (normalizeTx s)) ∧
    (detectChain s = .bitcoin → bitcoinShape (normalizeTx s)) ∧
    (detectChain s = .solana → solanaShape (normalizeTx s)) ∧
    (∀ t, ¬(evmShape t ∧ bitcoinShape t)) ∧
    (∀ t, ¬(evmShape t ∧ solanaShape t)) ∧
    (∀ t, ¬(bitcoinShape t ∧ solanaShape t)) := by
  refine ⟨fun h => detectChainCore_eq_evm h,
    fun h => detectChainCore_eq_bitcoin h,
    fun h => detectChainCore_eq_solana h, ?_, ?_, ?_⟩
  · rintro t ⟨⟨r, rfl, hr, _⟩, hlen, _, _⟩
    simp at hlen
    omega
  · rintro t ⟨⟨r, rfl, hr, _⟩, h80, _, _⟩
    simp at h80
    omega
  · rintro t ⟨⟨hlen, _, _⟩, h80, _, _⟩
    omega

/-- Witness for C10 at concrete accepted inputs of each chain. -/
theorem c10_witness :
    evmShape (normalizeTx ('0' :: 'x' :: List.replicate 64 'a')) ∧
    bitcoinShape (normalizeTx (List.replicate 64 'b')) ∧
    solanaShape (normalizeTx (List.replicate 85 'z')) :=
  ⟨(c10_accepting_shapes _).1 (by decide),
    (c10_accepting_shapes _).2.1 (by decide),
    (c10_accepting_shapes _).2.2.1 (by decide)⟩

/-- Claim C7: empty, whitespace-only, or shorter-than-20 inputs yield
Unknown chain and Unknown kind - proved for the spec-modelled unified
detector (whose length-20 gate and kind output are absent from src/),
and for the chain output of the shipped `detectChain` as well. -/
theorem c7_short_inputs_unknown (raw : List Char)
    (h : raw.length < 20 ∨ raw.all isWhitespace = true) :
    Spec.detect raw = (.unknown, .unknown) ∧ detectChain raw = .unknown := by
  rcases h with h | h
  · constructor
    · unfold Spec.detect
      exact detectCore_short (lt_of_le_of_lt (spec_normalize_length_le raw) h)
    · unfold detectChain
      exact detectChainCore_short
        (lt_of_le_of_lt (normalizeTx_length_le raw) h)
  · constructor
    · unfold Spec.detect Spec.normalize
      rw [removeWhitespace_eq_nil h]
      rfl
    · unfold detectChain
      rw [normalizeTx_def, trim_eq_nil h]
      rfl

/-- Witness for C7 at a concrete too-short input. -/
theorem c7_witness :
    Spec.detect ( "0x123".data) = (.unknown, .unknown) ∧
    detectChain ( "0x123".data) = .unknown :=
  c7_short_inputs_unknown _ (Or.inl (by decide))

/-- Claim C8: whenever the detected chain or the detected input kind of
the (normalized) input is Unknown, `checkContamination` returns status
Unknown with an empty match list, for every flagged-entry table. -/
theorem c8_unknown_passthrough (input : List Char)
    (entries : List BlacklistEntry)
    (h : Spec.detectChain (normalizeValue input) = .unknown ∨
        Spec.detectInputType (normalizeValue input) = .unknown) :
    checkContamination input entries = ⟨.unknown, []⟩ := by
  unfold checkContamination
  rcases h with h | h
  · rw [if_pos (Or.inr h)]
  · rw [if_pos (Or.inl h)]

/-- Witness for C8: an unclassifiable input stays Unknown even against
a table that contains its exact value. -/
theorem c8_witness :
    checkContamination ( "invalid-input".data)
      [⟨ "invalid-input".data, ChainType.evm, InputType.tx, [], []⟩] =
      ⟨.unknown, []⟩ :=
  c8_unknown_passthrough _ _ (Or.inl (by decide))

/-- Claim C9: two hex-shaped inputs differing only in letter case -
either both `0x`/`0X`-prefixed hex values, or both bare 64-character
hex values - receive the same contamination status against any
table. -/
theorem c9_hex_case_symmetry (a b : List Char)
    (entries : List BlacklistEntry)
    (hshape :
      ((∀ c ∈ a, HEX_CHARS.contains c = true ∨ c = 'x' ∨ c = 'X') ∧
        (∀ c ∈ b, HEX_CHARS.contains c = true ∨ c = 'x' ∨ c = 'X') ∧
        startsWith0x (lowerStr a) = true ∧
        startsWith0x (lowerStr b) = true) ∨
      (a.length = 64 ∧ isHexString a = true ∧
        b.length = 64 ∧ isHexString b = true))
    (heq : lowerStr a = lowerStr b) :
    (checkContamination a entries).status =
      (checkContamination b entries).status := by
  have h : normalizeValue a = normalizeValue b := by
    unfold normalizeValue
    rcases hshape with ⟨ha, hb, hpa, hpb⟩ | ⟨hla, hxa, hlb, hxb⟩
    · rw [normalize_hexish ha hpa, normalize_hexish hb hpb, heq]
    · rw [normalize_hex64 hla hxa, normalize_hex64 hlb hxb, heq]
  rw [checkContamination_congr h]

/-- Witness for C9: an uppercase EVM hash against its lowercase form,
and an uppercase bare Bitcoin hash against its lowercase form, each
with the lowercase form in the table. -/
theorem c9_witness :
    ((checkContamination ('0' :: 'X' :: List.replicate 64 'A')
      [⟨'0' :: 'x' :: List.replicate 64 'a', ChainType.evm, InputType.tx,
        [], []⟩]).status =
    (checkContamination ('0' :: 'x' :: List.replicate 64 'a')
      [⟨'0' :: 'x' :: List.replicate 64 'a', ChainType.evm, InputType.tx,
        [], []⟩]).status) ∧
    ((checkContamination (List.replicate 64 'A')
      [⟨List.replicate 64 'a', ChainType.bitcoin, InputType.tx,
        [], []⟩]).status =
    (checkContamination (List.replicate 64 'a')
      [⟨List.replicate 64 'a', ChainType.bitcoin, InputType.tx,
        [], []⟩]).status) :=
  ⟨c9_hex_case_symmetry _ _ _
      (Or.inl ⟨by decide, by decide, by decide, by decide⟩) (by decide),
    c9_hex_case_symmetry _ _ _
      (Or.inr ⟨by decide, by decide, by decide, by decide⟩) (by decide)⟩

/-- Claim C5: for the supported explorer URL templates (EVM-style
`/tx/0x<hash>`, Bitcoin `/tx/<hash>`, Solana `/tx/<signature>`), the
identifier is extracted during normalization and the classification of
the URL equals the classification of the extracted identifier
(spec-modelled extraction and detector). -/
theorem c5_url_roundtrip (h sig : List Char) :
    (h.length = 64 → isHexString h = true →
      Spec.detectChain ( "https://etherscan.io/tx/0x".data ++ h) =
        Spec.detectChain ('0' :: 'x' :: h)) ∧
    (h.length = 64 → isHexString h = true →
      Spec.detectChain ( "https://mempool.space/tx/".data ++ h) =
        Spec.detectChain h) ∧
    (80 ≤ sig.length → sig.length ≤ 90 → isBase58String sig = true →
      Spec.detectChain ( "https://solscan.io/tx/".data ++ sig) =
        Spec.detectChain sig) := by
  refine ⟨?_, ?_, ?_⟩
  · intro hlen hhex
    have hid : ∀ c ∈ ('0' :: 'x' :: h), isIdChar c := by
      intro c hc
      rcases List.mem_cons.mp hc with rfl | hc2
      · exact Or.inl (by decide)
      rcases List.mem_cons.mp hc2 with rfl | hc3
      · exact Or.inr (by decide)
      · exact hex_all_idChar hhex c hc3
    have hcleanU :
        Spec.removeWhitespace ( "https://etherscan.io/tx/0x".data ++ h) =
          "https://etherscan.io/tx/0x".data ++ h := by
      rw [removeWhitespace_append,
        show Spec.removeWhitespace ( "https://etherscan.io/tx/0x".data) =
          "https://etherscan.io/tx/0x".data from rfl,
        removeWhitespace_id (hex_all_idChar hhex)]
    have hurlU :
        Spec.looksLikeUrl ( "https://etherscan.io/tx/0x".data ++ h) = true :=
      looksLikeUrl_scheme (containsSub_append_left (by decide))
    have hU := normalize_of_extract hcleanU hurlU (extract_ether hlen hhex)
    have hI := normalize_of_id (removeWhitespace_id hid) (looksLikeUrl_id hid)
    unfold Spec.detectChain Spec.detect
    rw [hU, hI]
  · intro hlen hhex
    have hid := hex_all_idChar hhex
    have hcleanU :
        Spec.removeWhitespace ( "https://mempool.space/tx/".data ++ h) =
          "https://mempool.space/tx/".data ++ h := by
      rw [removeWhitespace_append,
        show Spec.removeWhitespace ( "https://mempool.space/tx/".data) =
          "https://mempool.space/tx/".data from rfl,
        removeWhitespace_id hid]
    have hurlU :
        Spec.looksLikeUrl ( "https://mempool.space/tx/".data ++ h) = true :=
      looksLikeUrl_scheme (containsSub_append_left (by decide))
    have hU := normalize_of_extract hcleanU hurlU (extract_mempool hlen hhex)
    have hI := normalize_of_id (removeWhitespace_id hid) (looksLikeUrl_id hid)
    unfold Spec.detectChain Spec.detect
    rw [hU, hI]
  · intro hlen80 hlen90 hb
    have hid := b58_all_idChar hb
    have hcleanU :
        Spec.removeWhitespace ( "https://solscan.io/tx/".data ++ sig) =
          "https://solscan.io/tx/".data ++ sig := by
      rw [removeWhitespace_append,
        show Spec.removeWhitespace ( "https://solscan.io/tx/".data) =
          "https://solscan.io/tx/".data from rfl,
        removeWhitespace_id hid]
    have hurlU :
        Spec.looksLikeUrl ( "https://solscan.io/tx/".data ++ sig) = true :=
      looksLikeUrl_scheme (containsSub_append_left (by decide))
    have hU := normalize_of_extract hcleanU hurlU
      (extract_solscan hlen80 hlen90 hb)
    have hI := normalize_of_id (removeWhitespace_id hid) (looksLikeUrl_id hid)
    unfold Spec.detectChain Spec.detect
    rw [hU, hI]

/-- Witness for C5 at the repository's sample hashes. -/
theorem c5_witness :
    Spec.detectChain ( "https://etherscan.io/tx/0x".data ++
        "5c504ed432cb51138bcf09aa5e8a410dd4a1e204ef84bfed1be16dfba1b22060".data) =
      Spec.detectChain ('0' :: 'x' ::
        "5c504ed432cb51138bcf09aa5e8a410dd4a1e204ef84bfed1be16dfba1b22060".data) ∧
    Spec.detectChain ( "https://mempool.space/tx/".data ++
        "e3bf3d07d4b0375638d5f1db5255fe07ba2c4cb067cd81b84ee974b6585fb468".data) =
      Spec.detectChain
        ( "e3bf3d07d4b0375638d5f1db5255fe07ba2c4cb067cd81b84ee974b6585fb468".data) ∧
    Spec.detectChain ( "https://solscan.io/tx/".data ++
        "5UfDuX7WXY4X3X4Gi94YcXdU8GjRqNn7dvK6Krw39e2qFjYBrtPgNE7C3UcC1oVPpJRqHqKYnNhb9dJmjMgfb1XA".data) =
      Spec.detectChain
        ( "5UfDuX7WXY4X3X4Gi94YcXdU8GjRqNn7dvK6Krw39e2qFjYBrtPgNE7C3UcC1oVPpJRqHqKYnNhb9dJmjMgfb1XA".data) :=
  ⟨(c5_url_roundtrip
      ( "5c504ed432cb51138bcf09aa5e8a410dd4a1e204ef84bfed1be16dfba1b22060".data)
      []).1 (by decide) (by decide),
   (c5_url_roundtrip
      ( "e3bf3d07d4b0375638d5f1db5255fe07ba2c4cb067cd81b84ee974b6585fb468".data)
      []).2.1 (by decide) (by decide),
   (c5_url_roundtrip []
      ( "5UfDuX7WXY4X3X4Gi94YcXdU8GjRqNn7dvK6Krw39e2qFjYBrtPgNE7C3UcC1oVPpJRqHqKYnNhb9dJmjMgfb1XA".data)).2.2
      (by decide) (by decide) (by decide)⟩

end TxWhisperer
